import Mathlib

/-!
Verification of the PCTD hardware-trojan detection pipeline.

Shallow embedding of the two analysis modules:
  Scripts/extract_transitions.py  (class VCDAnalyzer)   -- trace decoder
  Scripts/PCTD_improved.py        (class PCTDDetector)  -- anomaly scorer

Python dictionaries are modelled as insertion-ordered association lists,
Python numbers (int and float) as rationals, and Python exceptions that can
escape a function as Option results.  Python list.sort is stable; it is
modelled by a stable insertion sort.
-/

/-! ## Generic string and list helpers -/

/-- Membership of a list of characters as a prefix of another list. -/
def startsWithL : List Char → List Char → Bool
  | _, [] => true
  | [], _ :: _ => false
  | a :: as, b :: bs => a == b && startsWithL as bs

/-- Substring containment test on character lists: does haystack contain
needle as a contiguous run.  Models the Python operator `needle in haystack`
on strings. -/
def hasSubL (hay needle : List Char) : Bool :=
  (List.range (hay.length + 1)).any (fun i => startsWithL (hay.drop i) needle)

/-- Prefix test on strings via the underlying character lists. -/
def startsWithS (s pre : String) : Bool :=
  startsWithL s.data pre.data

/-- Python str.strip: remove leading and trailing whitespace. -/
def strTrim (s : String) : String :=
  String.mk (((s.data.dropWhile Char.isWhitespace).reverse.dropWhile
    Char.isWhitespace).reverse)

/-- Helper for whitespace splitting: accumulates the current word
(in reverse) and emits words at whitespace boundaries. -/
def wordsAux : List Char → List Char → List String
  | [], acc => if acc.isEmpty then [] else [String.mk acc.reverse]
  | c :: cs, acc =>
    if c.isWhitespace then
      if acc.isEmpty then wordsAux cs []
      else String.mk acc.reverse :: wordsAux cs []
    else wordsAux cs (c :: acc)

/-- Python str.split with no arguments: split on runs of whitespace,
discarding empty fields. -/
def splitWS (s : String) : List String :=
  wordsAux s.data []

/-- Parse a non-empty run of decimal digits. -/
def digitsToNat (cs : List Char) : Option Nat :=
  if cs.isEmpty then none
  else if cs.all Char.isDigit then
    some (cs.foldl (fun n c => n * 10 + (c.toNat - '0'.toNat)) 0)
  else none

/-- Python int(str): optional surrounding whitespace, optional sign,
then decimal digits.  (Underscore digit separators are not modelled;
no input in this development uses them.) -/
def parseInt (s : String) : Option Int :=
  match ((s.data.dropWhile Char.isWhitespace).reverse.dropWhile
      Char.isWhitespace).reverse with
  | '-' :: ds => (digitsToNat ds).map (fun n => -(n : Int))
  | '+' :: ds => (digitsToNat ds).map (fun n => (n : Int))
  | ds => (digitsToNat ds).map (fun n => (n : Int))

/-- Lower-case a string character by character (models re.IGNORECASE by
normalising the subject before matching lower-case patterns). -/
def lowerStr (s : String) : String :=
  String.mk (s.data.map Char.toLower)

/-! ## Stable sorting

Python list.sort is stable.  A stable sort is modelled by insertion
sort: `insertBy gt x l` places x before the first element y with
`gt x y = true`, hence after every earlier element it does not strictly
precede, which is exactly stable-sort placement. -/

/-- Insert x into l, placing it before the first y with gt x y. -/
def insertBy {α : Type} (gt : α → α → Bool) (x : α) : List α → List α
  | [] => [x]
  | y :: ys => if gt x y then x :: y :: ys else y :: insertBy gt x ys

/-- Stable sort: fold the input left to right, inserting each element
into the accumulated sorted list. -/
def sortBy {α : Type} (gt : α → α → Bool) (l : List α) : List α :=
  l.foldl (fun acc x => insertBy gt x acc) []

/-! ## Association-list models of Python dict and defaultdict -/

/-- Dictionary lookup. -/
def alookup {α : Type} : List (String × α) → String → Option α
  | [], _ => none
  | (k', v) :: t, k => if k' = k then some v else alookup t k

/-- Dictionary assignment d[k] = v: replace in place, else append
(Python dicts preserve insertion order). -/
def setAssoc {α : Type} : List (String × α) → String → α → List (String × α)
  | [], k, v => [(k, v)]
  | (k', v') :: t, k, v =>
    if k' = k then (k', v) :: t else (k', v') :: setAssoc t k v

/-- Model of defaultdict(int) increment d[k] += 1: bump in place, else
materialise the key with value 1. -/
def bumpTrans : List (String × Nat) → String → List (String × Nat)
  | [], n => [(n, 1)]
  | (k, c) :: t, n =>
    if k = n then (k, c + 1) :: t else (k, c) :: bumpTrans t n

/-- Model of defaultdict(list) append d[k].append(e). -/
def appendVal : List (String × List (Int × String)) → String →
    (Int × String) → List (String × List (Int × String))
  | [], k, e => [(k, [e])]
  | (k', l) :: t, k, e =>
    if k' = k then (k', l ++ [e]) :: t else (k', l) :: appendVal t k e

/-! ## TraceDecoder: VCDAnalyzer.parse_vcd (extract_transitions.py) -/

/-- One entry of self.signals, keyed by the short VCD identifier code.
Fields mirror the dict literal at extract_transitions.py lines 68-73. -/
structure SigInfo where
  name : String
  vtype : String
  size : String
  last_value : Option String
deriving DecidableEq, Repr

/-- The mutable state of a VCDAnalyzer during parse_vcd. -/
structure VCDState where
  signals : List (String × SigInfo)
  transitions : List (String × Nat)
  signal_values : List (String × List (Int × String))
  timescale : String
  simulation_time : Int
  current_time : Int
  in_dump : Bool
deriving DecidableEq, Repr

/-- Initial analyzer state (VCDAnalyzer.__init__). -/
def initState : VCDState :=
  { signals := [], transitions := [], signal_values := []
    timescale := "1ns", simulation_time := 0, current_time := 0
    in_dump := false }

/-- Python membership test of a string in the literal string "01"
(used at lines 99: value in '01' and last_value in '01').  This is
substring containment, so it also accepts "" and "01". -/
def inStr01 (s : String) : Bool :=
  hasSubL ['0', '1'] s.data

/-- Scalar value-change handling, extract_transitions.py lines 94-103:
count a transition only when a previous value exists, differs from the
new one, and both pass the substring test against "01"; always store the
new value and append to the per-signal value history. -/
def scalarEvent (st : VCDState) (value signal_id : String) : VCDState :=
  match alookup st.signals signal_id with
  | none => st
  | some info =>
    let counted := match info.last_value with
      | some lv => (!(lv == value)) && inStr01 value && inStr01 lv
      | none => false
    { st with
      signals := setAssoc st.signals signal_id ({ info with last_value := some value })
      transitions := if counted then bumpTrans st.transitions info.name
                     else st.transitions
      signal_values := appendVal st.signal_values info.name
                         (st.current_time, value) }

/-- Vector (bus) value-change handling, lines 112-120: count whenever a
previous value exists and the raw bit-string differs; store the value and
append to the history. -/
def vectorEvent (st : VCDState) (value signal_id : String) : VCDState :=
  match alookup st.signals signal_id with
  | none => st
  | some info =>
    let counted := match info.last_value with
      | some lv => !(lv == value)
      | none => false
    { st with
      signals := setAssoc st.signals signal_id ({ info with last_value := some value })
      transitions := if counted then bumpTrans st.transitions info.name
                     else st.transitions
      signal_values := appendVal st.signal_values info.name
                         (st.current_time, value) }

/-- Real value-change handling, lines 129-136: same counting rule as
vectors, but the value history is not appended to. -/
def realEvent (st : VCDState) (value signal_id : String) : VCDState :=
  match alookup st.signals signal_id with
  | none => st
  | some info =>
    let counted := match info.last_value with
      | some lv => !(lv == value)
      | none => false
    { st with
      signals := setAssoc st.signals signal_id ({ info with last_value := some value })
      transitions := if counted then bumpTrans st.transitions info.name
                     else st.transitions }

/-- Set of symbols accepted by the scalar branch test line[0] in '01xzXZ'. -/
def isScalarSym (c : Char) : Bool :=
  c == '0' || c == '1' || c == 'x' || c == 'z' || c == 'X' || c == 'Z'

/-- Value-change dispatch, lines 88-137, applied to a stripped non-empty
line inside a dump section that does not start with a dollar sign. -/
def valueLine (st : VCDState) (line : String) : VCDState :=
  match line.data with
  | [] => st
  | c :: rest =>
    if 1 ≤ rest.length && isScalarSym c then
      scalarEvent st (String.mk [c]) (String.mk rest)
    else if c == 'b' then
      match splitWS line with
      | p0 :: p1 :: _ => vectorEvent st (String.mk (p0.data.drop 1)) p1
      | _ => st
    else if c == 'r' then
      match splitWS line with
      | p0 :: p1 :: _ => realEvent st (String.mk (p0.data.drop 1)) p1
      | _ => st
    else st

/-- Leftmost match of the fallback regex (\d+\s*[a-z]+) with IGNORECASE
used at line 50 when a timescale line does not split into two tokens.
The three character classes are disjoint, so greedy matching without
backtracking is equivalent. -/
def tsSearch : List Char → Option String
  | [] => none
  | c :: rest =>
    if c.isDigit then
      let ds := (c :: rest).takeWhile Char.isDigit
      let r1 := (c :: rest).dropWhile Char.isDigit
      let sp := r1.takeWhile Char.isWhitespace
      let r2 := r1.dropWhile Char.isWhitespace
      let ls := r2.takeWhile Char.isAlpha
      if ls.isEmpty then tsSearch rest else some (String.mk (ds ++ sp ++ ls))
    else tsSearch rest

/-- Timescale line handling, lines 43-56. -/
def timescaleLine (st : VCDState) (line : String) : VCDState :=
  match splitWS line with
  | _ :: p1 :: _ => { st with timescale := p1 }
  | _ =>
    match tsSearch line.data with
    | some t => { st with timescale := t }
    | none => st

/-- Variable-declaration handling, lines 59-73: at least five tokens
register a signal keyed by its code; trailing tokens are ignored. -/
def varLine (st : VCDState) (line : String) : VCDState :=
  match splitWS line with
  | _ :: p1 :: p2 :: p3 :: p4 :: _ =>
    { st with signals :=
        setAssoc st.signals p3 ({ name := p4, vtype := p1, size := p2, last_value := none }) }
  | _ => st

/-- Timestamp handling, lines 78-84: on a parse failure the exception is
caught before any assignment, so the state is unchanged. -/
def timeLine (st : VCDState) (line : String) : VCDState :=
  match parseInt (String.mk (line.data.drop 1)) with
  | some t =>
    { st with current_time := t
              simulation_time := max st.simulation_time t
              in_dump := true }
  | none => st

/-- Processing of one raw input line by the parse_vcd loop, lines 35-140. -/
def processLine (st : VCDState) (raw : String) : VCDState :=
  let line := strTrim raw
  if line.data.isEmpty then st
  else if startsWithS line "$timescale" then timescaleLine st line
  else if startsWithS line "$var" then varLine st line
  else if startsWithS line "#" then timeLine st line
  else if st.in_dump && !(startsWithS line "$") then valueLine st line
  else st

/-- VCDAnalyzer.parse_vcd on a list of input lines. -/
def parseVCD (lines : List String) : VCDState :=
  lines.foldl processLine initState

/-- Reading self.transitions[name]: the defaultdict yields 0 for a key
never incremented. -/
def transCount (st : VCDState) (name : String) : Nat :=
  (alookup st.transitions name).getD 0

/-! ## AnomalyScorer: PCTDDetector (PCTD_improved.py)

The transition table loaded from JSON maps signal names to JSON values;
a value is either a number (Python int or float, modelled as a rational)
or something non-numeric, which the isinstance filters discard. -/

/-- A JSON value in the transition-count table. -/
inductive JVal where
  | num (q : ℚ)
  | other
deriving DecidableEq, Repr

/-- The transition-count table self.transition_data, an insertion-ordered
mapping from signal name to JSON value. -/
abbrev TransitionData : Type := List (String × JVal)

/-- The numeric values of the table, in table order
(load_transition_data line 51). -/
def numericCounts (d : TransitionData) : List ℚ :=
  d.filterMap (fun p => match p.2 with | JVal.num c => some c | JVal.other => none)

/-- self.avg_transitions = sum(counts) / len(counts), line 53.  With no
numeric counts Python leaves the attribute unset; the scorer only reads it
when a positive count exists, so the value returned here for an empty list
is never observed. -/
def avgTransitions (d : TransitionData) : ℚ :=
  (numericCounts d).sum / ((numericCounts d).length : ℚ)

/-- The positive numeric values of the table, in table order
(identify_suspicious_signals line 120). -/
def positiveCounts (d : TransitionData) : List ℚ :=
  d.filterMap (fun p => match p.2 with
    | JVal.num c => if 0 < c then some c else none
    | JVal.other => none)

/-- Comparison used to sort the positive counts ascending (line 125). -/
def qlt (a b : ℚ) : Bool := decide (a < b)

/-- Threshold computation, lines 125-127: sort the positive counts
ascending, index with max(0, int(N * P / 100)) — Nat multiplication and
division give exactly the floor, and the lower clamp is vacuous — and
return none when the index is out of range (Python IndexError). -/
def thresholdOf (d : TransitionData) (P : ℕ) : Option ℚ :=
  let counts := positiveCounts d
  (sortBy qlt counts).get? (max 0 (counts.length * P / 100))

/-- One entry of self.suspicious_signals (lines 136-141). -/
structure SusRec where
  name : String
  transitions : ℚ
  suspicion_score : ℚ
  percentage_of_avg : ℚ
deriving DecidableEq, Repr

/-- The loop of lines 133-141: for each table entry with a numeric count
strictly between 0 and the threshold, build a suspicion record.  The
suspicion score divides by the corpus average unconditionally, so a zero
average raises ZeroDivisionError there (modelled as none); the percentage
is guarded by the average being positive. -/
def buildSuspicious : TransitionData → ℚ → ℚ → Option (List SusRec)
  | [], _, _ => some []
  | (name, v) :: t, thr, avg =>
    match v with
    | JVal.num c =>
      if c < thr ∧ 0 < c then
        if avg = 0 then none
        else (buildSuspicious t thr avg).map (fun rest =>
          ({ name := name, transitions := c
             suspicion_score := 1 - c / avg
             percentage_of_avg := if 0 < avg then c / avg * 100 else 0 } : SusRec) :: rest)
      else buildSuspicious t thr avg
    | JVal.other => buildSuspicious t thr avg

/-- Comparison for the stable ascending sort of the suspicious list by
raw transition count (line 144). -/
def susGt (a b : SusRec) : Bool := decide (a.transitions < b.transitions)

/-- PCTDDetector.identify_suspicious_signals, lines 111-146: early return
with an empty list when the table is empty or has no positive numeric
count; otherwise compute the threshold (none on IndexError), build the
suspicion records (none on ZeroDivisionError) and sort them ascending by
transition count. -/
def identifySuspicious (d : TransitionData) (P : ℕ) : Option (List SusRec) :=
  if d.isEmpty then some []
  else if (positiveCounts d).isEmpty then some []
  else
    match thresholdOf d P with
    | none => none
    | some thr => (buildSuspicious d thr (avgTransitions d)).map (sortBy susGt)

/-! ### RegisterClassifier: the is_dff test of analyze_trojan_candidates -/

/-- Greedy matcher for the regex fragment \[?\d*\]?$ — an optional opening
bracket, digits, an optional closing bracket, then end of string.  The
three token classes are disjoint, so greedy matching is equivalent to the
backtracking regex. -/
def optBrDig (r : List Char) : Bool :=
  let r1 := match r with | '[' :: t => t | _ => r
  match r1.dropWhile Char.isDigit with
  | [] => true
  | [c] => c == ']'
  | _ => false

/-- Case-insensitive match of the regex .*TAG\[?\d*\]?$ (re.match with
re.IGNORECASE): some split of the lower-cased name puts TAG followed by an
optional bracketed index at the very end. -/
def matchTagBracket (tag : String) (name : String) : Bool :=
  let s := (lowerStr name).data
  (List.range (s.length + 1)).any (fun i =>
    startsWithL (s.drop i) tag.data && optBrDig ((s.drop i).drop tag.data.length))

/-- Case-insensitive match of the regex .*SUB.* — substring containment
after lower-casing.  (Python . does not match a newline, but signal names
are whitespace-free tokens, so the distinction never arises.) -/
def matchContains (sub : String) (name : String) : Bool :=
  hasSubL (lowerStr name).data sub.data

/-- The ordered pattern list dff_patterns of lines 171-177. -/
def dffPatterns : List (String → Bool) :=
  [matchTagBracket "_reg", matchTagBracket "_q",
   matchContains "state", matchContains "count", matchContains "shift"]

/-- Index of the first matching pattern, mirroring the for loop with break
of lines 180-183. -/
def firstMatchAux (name : String) : List (String → Bool) → Nat → Option Nat
  | [], _ => none
  | m :: t, i => if m name then some i else firstMatchAux name t (i + 1)

/-- First pattern of dff_patterns matching the name, if any. -/
def firstMatchIdx (name : String) : Option Nat :=
  firstMatchAux name dffPatterns 0

/-- The is_dff classification of lines 162-183: an OR of the hint-list
containment test (substring in either direction, lines 165-168) and the
ordered pattern scan. -/
def isDFF (dffList : List String) (name : String) : Bool :=
  dffList.any (fun dff => hasSubL name.data dff.data || hasSubL dff.data name.data) ||
  dffPatterns.any (fun m => m name)

/-- One entry of self.trojan_candidates (lines 199-205). -/
structure Candidate where
  signal : String
  transitions : ℚ
  percentage_of_avg : ℚ
  trojan_probability : ℚ
  risk_level : String
deriving DecidableEq, Repr

/-- Risk-level assignment by percentage of average, lines 190-197. -/
def riskLevel (p : ℚ) : String :=
  if p < 5 then "CRITICAL"
  else if p < 10 then "HIGH"
  else if p < 20 then "MEDIUM"
  else "LOW"

/-- Candidate record built from a suspicious record (lines 186-205). -/
def mkCandidate (r : SusRec) : Candidate :=
  { signal := r.name, transitions := r.transitions
    percentage_of_avg := r.percentage_of_avg
    trojan_probability := r.suspicion_score * 100
    risk_level := riskLevel r.percentage_of_avg }

/-- The candidate list in encounter order, before the final sort: the loop
of lines 158-205 appends a candidate for each suspicious signal that is
classified register-like. -/
def trojanCandidatesPre (dffList : List String) (sus : List SusRec) : List Candidate :=
  sus.filterMap (fun r => if isDFF dffList r.name then some (mkCandidate r) else none)

/-- Comparison for the stable descending sort by trojan probability
(line 208, sort with reverse=True). -/
def candGt (a b : Candidate) : Bool := decide (b.trojan_probability < a.trojan_probability)

/-- PCTDDetector.analyze_trojan_candidates, lines 153-208. -/
def analyzeTrojanCandidates (dffList : List String) (sus : List SusRec) : List Candidate :=
  sortBy candGt (trojanCandidatesPre dffList sus)

/-- The scoring pipeline on an already-loaded transition table and hint
list: identify_suspicious_signals then analyze_trojan_candidates
(run_detection, lines 307-310); none models an uncaught exception. -/
def pctdPipeline (d : TransitionData) (dffList : List String) (P : ℕ) :
    Option (List Candidate) :=
  match identifySuspicious d P with
  | none => none
  | some sus => some (analyzeTrojanCandidates dffList sus)

/-! ### Definitions taken from the claims, for refinement comparisons -/

/-- Modelled from the claim wording of C3: the threshold index
floor(N * P / 100) clamped to the range [0, N-1]. -/
def claimThresholdIndex (N P : ℕ) : ℕ :=
  min (max 0 (N * P / 100)) (N - 1)

/-- Modelled from the claim wording of C1: a scalar transition is counted
iff the previous value exists, both the previous and the new value symbol
are in the set containing only "0" and "1", and they differ. -/
def claimScalarCounted (last : Option String) (value : String) : Bool :=
  match last with
  | some lv => (!(lv == value)) && (value == "0" || value == "1") && (lv == "0" || lv == "1")
  | none => false

/-! ## Aggregate statistics (extract_transitions.generate_report) -/

/-- The list of transition counts feeding the report statistics,
line 210: only signals materialised in the transitions defaultdict. -/
def statsTransCounts (st : VCDState) : List Nat :=
  st.transitions.map (fun p => p.2)

/-- stats min_trans, line 218: 0 when the list is empty. -/
def statsMinTrans (st : VCDState) : Nat :=
  match statsTransCounts st with
  | [] => 0
  | x :: t => t.foldl Nat.min x

/-- stats max_trans, line 219. -/
def statsMaxTrans (st : VCDState) : Nat :=
  match statsTransCounts st with
  | [] => 0
  | x :: t => t.foldl Nat.max x

/-- stats avg_trans, line 220: sum / len, or 0 when empty. -/
def statsAvgTrans (st : VCDState) : ℚ :=
  match statsTransCounts st with
  | [] => 0
  | l => ((l.map (fun n => (n : ℚ))).sum) / (l.length : ℚ)

/-- The artifact handed from the decoder to the scorer: save_json writes
dict(self.transitions) as transition_counts, which load_transition_data
reads back. -/
def decoderOutput (st : VCDState) : TransitionData :=
  st.transitions.map (fun p => (p.1, JVal.num (p.2 : ℚ)))

/-! ## Concrete inputs used by the claim instances -/

/-- Closed form of a successful buildSuspicious pass (used only in
proofs): the records built from the qualifying table entries, in table
order. -/
def susOf (d : TransitionData) (thr avg : ℚ) : List SusRec :=
  d.filterMap (fun p => match p.2 with
    | JVal.num c =>
      if c < thr ∧ 0 < c then
        some ({ name := p.1, transitions := c
                suspicion_score := 1 - c / avg
                percentage_of_avg := if 0 < avg then c / avg * 100 else 0 } : SusRec)
      else none
    | JVal.other => none)

/-- Scalar trace with value sequence 0,1,0,1 on one declared code. -/
def traceScalar0101 : List String :=
  ["$timescale 1ns $end", "$var wire 1 A s1 $end",
   "#0", "0A", "#1", "1A", "#2", "0A", "#3", "1A"]

/-- Scalar trace with value sequence 0,x,1 on one declared code. -/
def traceScalar0x1 : List String :=
  ["$var wire 1 A s1 $end", "#0", "0A", "#1", "xA", "#2", "1A"]

/-- Trace storing a vector value on a code and then sending a scalar
value change on the same code. -/
def traceMixed : List String :=
  ["$var wire 1 A s1 $end", "#0", "b01 A"]

/-- Bus trace with value sequence b00, b01, b00. -/
def traceVector : List String :=
  ["$var reg 2 A s1 $end", "#0", "b00 A", "#1", "b01 A", "#2", "b00 A"]

/-- Bus trace whose intermediate value contains an x bit. -/
def traceVectorX : List String :=
  ["$var reg 2 A s1 $end", "#0", "b00 A", "#1", "b0x A", "#2", "b00 A"]

/-- Trace declaring two signals, one of which never makes a counted
transition (its only change is 0 to x). -/
def traceTwoSignals : List String :=
  ["$var wire 1 A s1 $end", "$var wire 1 B s2 $end",
   "#0", "0A", "0B", "#1", "1A", "xB"]

/-- Transition table holding the counts 1,2,...,100. -/
def tableCounts100 : TransitionData :=
  (List.range 100).map (fun i => ("s" ++ toString (i + 1), JVal.num ((i : ℚ) + 1)))

/-- Transition table with one low-activity register-named signal, nine
busy signals and ten zero-count signals: the average over all numeric
counts (95/20) sits below the low signal count 5, while the percentile
threshold over positive counts alone is 10. -/
def tableSkewed : TransitionData :=
  ("state_x", JVal.num 5) ::
    ((List.range 9).map (fun i => ("r" ++ toString (i + 1), JVal.num 10))) ++
    ((List.range 10).map (fun i => ("z" ++ toString (i + 1), JVal.num 0)))

/-- Two-signal table used to instantiate universally quantified theorems. -/
def tableSmall : TransitionData :=
  [("a", JVal.num 1), ("b", JVal.num 2)]

/-- Decoder state after declaring one scalar signal and observing one
value change (used to instantiate universally quantified theorems). -/
def stDemo : VCDState :=
  parseVCD ["$var wire 1 A s1 $end", "#0", "0A"]

/-- The signal entry held by stDemo under code A. -/
def infoDemo : SigInfo :=
  { name := "s1", vtype := "wire", size := "1", last_value := some "0" }

/-- Suspicion record used to instantiate universally quantified theorems. -/
def susDemo : SusRec :=
  { name := "state", transitions := 1, suspicion_score := 1 / 2
    percentage_of_avg := 50 }

/-- One-signal all-zero transition table. -/
def tableZero : TransitionData :=
  [("a", JVal.num 0)]

/-! ## Lemmas about the dictionary models -/

theorem alookup_bumpTrans_self (l : List (String × Nat)) (n : String) :
    (alookup (bumpTrans l n) n).getD 0 = (alookup l n).getD 0 + 1 := by
  induction l with
  | nil => simp [bumpTrans, alookup]
  | cons p t ih =>
    obtain ⟨k, c⟩ := p
    by_cases hk : k = n
    · simp [bumpTrans, alookup, hk]
    · simp [bumpTrans, alookup, hk, ih]

theorem alookup_setAssoc_self {α : Type} (l : List (String × α)) (k : String) (v : α) :
    alookup (setAssoc l k v) k = some v := by
  induction l with
  | nil => simp [setAssoc, alookup]
  | cons p t ih =>
    obtain ⟨k', v'⟩ := p
    by_cases hk : k' = k
    · simp [setAssoc, alookup, hk]
    · simp [setAssoc, alookup, hk, ih]

theorem bumpTrans_ge_one (l : List (String × Nat)) (n : String)
    (h : ∀ p ∈ l, 1 ≤ p.2) : ∀ p ∈ bumpTrans l n, 1 ≤ p.2 := by
  induction l with
  | nil =>
    intro p hp
    simp [bumpTrans] at hp
    simp [hp]
  | cons q t ih =>
    obtain ⟨k, c⟩ := q
    intro p hp
    by_cases hk : k = n
    · simp [bumpTrans, hk] at hp
      rcases hp with hp | hp
      · simp [hp]
      · exact h p (List.mem_cons_of_mem _ hp)
    · simp [bumpTrans, hk] at hp
      rcases hp with hp | hp
      · exact h p (by simp [hp])
      · exact ih (fun q hq => h q (List.mem_cons_of_mem _ hq)) p hp

/-! ## Lemmas about the stable sort -/

theorem insertBy_perm {α : Type} (gt : α → α → Bool) (x : α) (l : List α) :
    (insertBy gt x l).Perm (x :: l) := by
  induction l with
  | nil => simp [insertBy]
  | cons y ys ih =>
    by_cases h : gt x y
    · simp [insertBy, h]
    · simp only [insertBy, h, if_neg, Bool.not_eq_true]
      exact ((ih.cons y).trans (List.Perm.swap x y ys))

theorem mem_insertBy {α : Type} (gt : α → α → Bool) (x a : α) (l : List α) :
    a ∈ insertBy gt x l ↔ a = x ∨ a ∈ l := by
  rw [(insertBy_perm gt x l).mem_iff]
  simp

theorem sortBy_foldl_perm {α : Type} (gt : α → α → Bool) :
    ∀ (l acc : List α), (l.foldl (fun acc x => insertBy gt x acc) acc).Perm (acc ++ l) := by
  intro l
  induction l with
  | nil => intro acc; simp
  | cons x t ih =>
    intro acc
    have h1 := ih (insertBy gt x acc)
    have h2 : (insertBy gt x acc ++ t).Perm ((x :: acc) ++ t) :=
      (insertBy_perm gt x acc).append_right t
    have h3 : ((x :: acc) ++ t).Perm (acc ++ x :: t) := by
      simpa using List.perm_middle.symm
    simp only [List.foldl_cons]
    exact h1.trans (h2.trans h3)

theorem sortBy_perm {α : Type} (gt : α → α → Bool) (l : List α) :
    (sortBy gt l).Perm l := by
  simpa using sortBy_foldl_perm gt l []

theorem mem_sortBy {α : Type} (gt : α → α → Bool) (a : α) (l : List α) :
    a ∈ sortBy gt l ↔ a ∈ l :=
  (sortBy_perm gt l).mem_iff

theorem length_sortBy {α : Type} (gt : α → α → Bool) (l : List α) :
    (sortBy gt l).length = l.length :=
  (sortBy_perm gt l).length_eq

theorem pairwise_insertBy {α : Type} {R : α → α → Prop} (gt : α → α → Bool)
    (h1 : ∀ a b, gt a b = true → R a b) (h2 : ∀ a b, gt a b = false → R b a)
    (ht : Transitive R) (x : α) :
    ∀ l : List α, l.Pairwise R → (insertBy gt x l).Pairwise R := by
  intro l
  induction l with
  | nil => intro _; simp [insertBy]
  | cons y ys ih =>
    intro hp
    rw [List.pairwise_cons] at hp
    obtain ⟨hy, hys⟩ := hp
    by_cases h : gt x y
    · simp only [insertBy, h, if_pos]
      rw [List.pairwise_cons]
      constructor
      · intro z hz
        rcases List.mem_cons.mp hz with hz | hz
        · exact hz ▸ h1 x y h
        · exact ht (h1 x y h) (hy z hz)
      · rw [List.pairwise_cons]
        exact ⟨hy, hys⟩
    · simp only [insertBy, h, if_neg, Bool.not_eq_true]
      rw [List.pairwise_cons]
      constructor
      · intro z hz
        rcases (mem_insertBy gt x z ys).mp hz with hz | hz
        · exact hz ▸ h2 x y (by simpa using h)
        · exact hy z hz
      · exact ih hys

theorem pairwise_sortBy_foldl {α : Type} {R : α → α → Prop} (gt : α → α → Bool)
    (h1 : ∀ a b, gt a b = true → R a b) (h2 : ∀ a b, gt a b = false → R b a)
    (ht : Transitive R) :
    ∀ (l acc : List α), acc.Pairwise R →
      (l.foldl (fun acc x => insertBy gt x acc) acc).Pairwise R := by
  intro l
  induction l with
  | nil => intro acc h; simpa using h
  | cons x t ih =>
    intro acc h
    exact ih (insertBy gt x acc) (pairwise_insertBy gt h1 h2 ht x acc h)

theorem pairwise_sortBy {α : Type} {R : α → α → Prop} (gt : α → α → Bool)
    (h1 : ∀ a b, gt a b = true → R a b) (h2 : ∀ a b, gt a b = false → R b a)
    (ht : Transitive R) (l : List α) : (sortBy gt l).Pairwise R :=
  pairwise_sortBy_foldl gt h1 h2 ht l [] (by simp)

/-! ### Stability of the sort: elements with equal key keep their
relative order.  Stated through filtering at each exact key value. -/

theorem filter_insertBy {α : Type} (k : α → ℚ) (x : α) (q : ℚ) :
    ∀ l : List α, l.Pairwise (fun a b => k b ≤ k a) →
      (insertBy (fun a b => decide (k b < k a)) x l).filter (fun a => decide (k a = q)) =
        (if k x = q then
          l.filter (fun a => decide (k a = q)) ++ [x]
        else
          l.filter (fun a => decide (k a = q))) := by
  intro l
  induction l with
  | nil =>
    intro _
    by_cases hq : k x = q <;> simp [insertBy, hq]
  | cons y ys ih =>
    intro hp
    rw [List.pairwise_cons] at hp
    obtain ⟨hy, hys⟩ := hp
    by_cases hgt : k y < k x
    · have hins : insertBy (fun a b => decide (k b < k a)) x (y :: ys) = x :: y :: ys := by
        simp [insertBy, hgt]
      rw [hins]
      by_cases hq : k x = q
      · have hempty : (y :: ys).filter (fun a => decide (k a = q)) = [] := by
          rw [List.filter_eq_nil_iff]
          intro a ha
          have hle : k a ≤ k y := by
            rcases List.mem_cons.mp ha with h | h
            · exact h ▸ le_refl _
            · exact hy a h
          have hlt : k a < q := lt_of_le_of_lt hle (hq ▸ hgt)
          simp [ne_of_lt hlt]
        rw [List.filter_cons_of_pos (by simp [hq]), if_pos hq, hempty]
        simp
      · rw [List.filter_cons_of_neg (by simp [hq]), if_neg hq]
    · have hins : insertBy (fun a b => decide (k b < k a)) x (y :: ys) =
          y :: insertBy (fun a b => decide (k b < k a)) x ys := by
        simp [insertBy, hgt]
      rw [hins]
      by_cases hyq : k y = q
      · rw [List.filter_cons_of_pos (by simp [hyq]), ih hys,
          List.filter_cons_of_pos (by simp [hyq])]
        by_cases hq : k x = q <;> simp [hq]
      · rw [List.filter_cons_of_neg (by simp [hyq]), ih hys,
          List.filter_cons_of_neg (by simp [hyq])]

theorem filter_sortBy_foldl {α : Type} (k : α → ℚ) (q : ℚ) :
    ∀ (l acc : List α), acc.Pairwise (fun a b => k b ≤ k a) →
      (l.foldl (fun acc x => insertBy (fun a b => decide (k b < k a)) x acc) acc).filter
          (fun a => decide (k a = q)) =
        acc.filter (fun a => decide (k a = q)) ++ l.filter (fun a => decide (k a = q)) := by
  intro l
  induction l with
  | nil => intro acc _; simp
  | cons x t ih =>
    intro acc hacc
    have hacc' : (insertBy (fun a b => decide (k b < k a)) x acc).Pairwise
        (fun a b => k b ≤ k a) := by
      apply pairwise_insertBy
      · intro a b h
        exact le_of_lt (of_decide_eq_true h)
      · intro a b h
        exact not_lt.mp (of_decide_eq_false h)
      · exact fun a b c h1 h2 => le_trans h2 h1
      · exact hacc
    simp only [List.foldl_cons]
    rw [ih _ hacc', filter_insertBy k x q acc hacc]
    rw [List.filter_cons]
    by_cases hq : k x = q <;> simp [hq]

theorem filter_sortBy {α : Type} (k : α → ℚ) (q : ℚ) (l : List α) :
    (sortBy (fun a b => decide (k b < k a)) l).filter (fun a => decide (k a = q)) =
      l.filter (fun a => decide (k a = q)) := by
  simpa using filter_sortBy_foldl k q l []

/-! ## Lemmas about the scorer -/

theorem mem_numericCounts (d : TransitionData) (c : ℚ) :
    c ∈ numericCounts d ↔ ∃ name, (name, JVal.num c) ∈ d := by
  unfold numericCounts
  rw [List.mem_filterMap]
  constructor
  · rintro ⟨⟨name, v⟩, hmem, hf⟩
    cases v with
    | num q =>
      simp only at hf
      exact ⟨name, (Option.some_inj.mp hf) ▸ hmem⟩
    | other => simp at hf
  · rintro ⟨name, hmem⟩
    exact ⟨(name, JVal.num c), hmem, rfl⟩

theorem mem_positiveCounts (d : TransitionData) (c : ℚ) :
    c ∈ positiveCounts d ↔ (∃ name, (name, JVal.num c) ∈ d) ∧ 0 < c := by
  unfold positiveCounts
  rw [List.mem_filterMap]
  constructor
  · rintro ⟨⟨name, v⟩, hmem, hf⟩
    cases v with
    | num q =>
      simp only at hf
      by_cases hq : 0 < q
      · rw [if_pos hq] at hf
        have := Option.some_inj.mp hf
        exact ⟨⟨name, this ▸ hmem⟩, this ▸ hq⟩
      · rw [if_neg hq] at hf
        exact absurd hf (by simp)
    | other => simp at hf
  · rintro ⟨⟨name, hmem⟩, hc⟩
    exact ⟨(name, JVal.num c), hmem, by simp [hc]⟩

theorem sum_zero_all_zero :
    ∀ l : List ℚ, (∀ x ∈ l, 0 ≤ x) → l.sum = 0 → ∀ x ∈ l, x = 0 := by
  intro l
  induction l with
  | nil => intro _ _ x hx; simp at hx
  | cons y ys ih =>
    intro hnn hsum x hx
    have hy : 0 ≤ y := hnn y (by simp)
    have hys : 0 ≤ ys.sum := List.sum_nonneg (fun a ha => hnn a (by simp [ha]))
    rw [List.sum_cons] at hsum
    have hy0 : y = 0 := le_antisymm (by linarith) hy
    have hsum0 : ys.sum = 0 := by linarith
    rcases List.mem_cons.mp hx with h | h
    · exact h ▸ hy0
    · exact ih (fun a ha => hnn a (by simp [ha])) hsum0 x h

theorem positiveCounts_nil_of_avg_zero (d : TransitionData)
    (hnn : ∀ name c, (name, JVal.num c) ∈ d → 0 ≤ c)
    (havg : avgTransitions d = 0) : positiveCounts d = [] := by
  rw [List.eq_nil_iff_forall_not_mem]
  intro c hc
  obtain ⟨⟨name, hmem⟩, hcpos⟩ := (mem_positiveCounts d c).mp hc
  have hcnum : c ∈ numericCounts d := (mem_numericCounts d c).mpr ⟨name, hmem⟩
  have hnn' : ∀ x ∈ numericCounts d, 0 ≤ x := by
    intro x hx
    obtain ⟨n, hn⟩ := (mem_numericCounts d x).mp hx
    exact hnn n x hn
  have hlen : (numericCounts d).length ≠ 0 := by
    intro h
    rw [List.length_eq_zero] at h
    rw [h] at hcnum
    simp at hcnum
  unfold avgTransitions at havg
  rw [div_eq_zero_iff] at havg
  have hsum : (numericCounts d).sum = 0 := by
    rcases havg with h | h
    · exact h
    · exact absurd (Nat.cast_eq_zero.mp h) hlen
  have := sum_zero_all_zero (numericCounts d) hnn' hsum c hcnum
  exact absurd this (ne_of_gt hcpos)

theorem identifySuspicious_of_no_positive (d : TransitionData) (P : ℕ)
    (h : positiveCounts d = []) : identifySuspicious d P = some [] := by
  unfold identifySuspicious
  by_cases hd : d.isEmpty
  · simp [hd]
  · simp [hd, h]

theorem avg_pos_of_nonneg (d : TransitionData)
    (hnn : ∀ name c, (name, JVal.num c) ∈ d → 0 ≤ c)
    (hpos : positiveCounts d ≠ []) : 0 < avgTransitions d := by
  obtain ⟨c0, hc0⟩ := List.exists_mem_of_ne_nil _ hpos
  obtain ⟨⟨name, hmem⟩, hc0pos⟩ := (mem_positiveCounts d c0).mp hc0
  have hc0num : c0 ∈ numericCounts d := (mem_numericCounts d c0).mpr ⟨name, hmem⟩
  have hnn' : ∀ x ∈ numericCounts d, 0 ≤ x := by
    intro x hx
    obtain ⟨n, hn⟩ := (mem_numericCounts d x).mp hx
    exact hnn n x hn
  have hsum : 0 < (numericCounts d).sum :=
    lt_of_lt_of_le hc0pos (List.single_le_sum hnn' c0 hc0num)
  have hlen : 0 < ((numericCounts d).length : ℚ) := by
    have : numericCounts d ≠ [] := by
      intro h
      rw [h] at hc0num
      simp at hc0num
    have := List.length_pos.mpr this
    exact_mod_cast this
  exact div_pos hsum hlen

theorem buildSuspicious_eq_susOf (avg : ℚ) (havg : avg ≠ 0) :
    ∀ (d : TransitionData) (thr : ℚ),
      buildSuspicious d thr avg = some (susOf d thr avg) := by
  intro d
  induction d with
  | nil => intro thr; rfl
  | cons p t ih =>
    intro thr
    obtain ⟨name, v⟩ := p
    cases v with
    | num c =>
      by_cases hc : c < thr ∧ 0 < c
      · simp [buildSuspicious, susOf, hc, havg, ih thr, List.filterMap_cons]
      · simp [buildSuspicious, susOf, hc, ih thr, List.filterMap_cons]
    | other =>
      simp [buildSuspicious, susOf, ih thr, List.filterMap_cons]

theorem mem_susOf (d : TransitionData) (thr avg : ℚ) (r : SusRec) :
    r ∈ susOf d thr avg ↔
      ∃ name c, (name, JVal.num c) ∈ d ∧ 0 < c ∧ c < thr ∧
        r = { name := name, transitions := c
              suspicion_score := 1 - c / avg
              percentage_of_avg := if 0 < avg then c / avg * 100 else 0 } := by
  unfold susOf
  rw [List.mem_filterMap]
  constructor
  · rintro ⟨⟨name, v⟩, hmem, hf⟩
    cases v with
    | num c =>
      simp only at hf
      by_cases hc : c < thr ∧ 0 < c
      · rw [if_pos hc] at hf
        exact ⟨name, c, hmem, hc.2, hc.1, (Option.some_inj.mp hf).symm⟩
      · rw [if_neg hc] at hf
        exact absurd hf (by simp)
    | other => simp at hf
  · rintro ⟨name, c, hmem, h0, hthr, hr⟩
    exact ⟨(name, JVal.num c), hmem, by simp [hthr, h0, hr]⟩

theorem thresholdOf_of_lt_100 (d : TransitionData) (P : ℕ)
    (hpos : positiveCounts d ≠ []) (hP : P < 100) :
    ∃ thr, thresholdOf d P = some thr ∧
      (sortBy qlt (positiveCounts d)).get?
        (min ((positiveCounts d).length * P / 100) ((positiveCounts d).length - 1)) =
        some thr := by
  have hN : 0 < (positiveCounts d).length := List.length_pos.mpr hpos
  have hidx : (positiveCounts d).length * P / 100 < (positiveCounts d).length := by
    rw [Nat.div_lt_iff_lt_mul (by norm_num : (0 : ℕ) < 100)]
    exact (Nat.mul_lt_mul_left hN).mpr hP
  have hmin : min ((positiveCounts d).length * P / 100) ((positiveCounts d).length - 1) =
      (positiveCounts d).length * P / 100 :=
    min_eq_left (Nat.le_sub_one_of_lt hidx)
  have hlen : (positiveCounts d).length * P / 100 < (sortBy qlt (positiveCounts d)).length := by
    rw [length_sortBy]
    exact hidx
  refine ⟨(sortBy qlt (positiveCounts d)).get ⟨_, hlen⟩, ?_, ?_⟩
  · unfold thresholdOf
    dsimp only
    rw [Nat.zero_max]
    exact List.get?_eq_get hlen
  · rw [hmin]
    exact List.get?_eq_get hlen

/-! ## Lemmas about the decoder -/

theorem inStr01_iff (s : String) : inStr01 s = true ↔
    s = "" ∨ s = "0" ∨ s = "1" ∨ s = "01" := by
  obtain ⟨l⟩ := s
  have d0 : ("" : String) = String.mk [] := rfl
  have d1 : ("0" : String) = String.mk ['0'] := rfl
  have d2 : ("1" : String) = String.mk ['1'] := rfl
  have d3 : ("01" : String) = String.mk ['0', '1'] := rfl
  rw [d0, d1, d2, d3]
  have hr : List.range ((['0', '1'] : List Char).length + 1) = [0, 1, 2] := rfl
  simp only [String.ext_iff]
  match l with
  | [] => decide
  | [a] =>
    simp only [inStr01, hasSubL, hr, List.any_cons, List.any_nil, List.drop,
      startsWithL, Bool.or_false, Bool.and_true, Bool.or_eq_true, beq_iff_eq]
    constructor
    · rintro (rfl | rfl) <;> simp
    · rintro (h | h | h | h) <;> simp_all
  | a :: b :: t =>
    simp only [inStr01, hasSubL, hr, List.any_cons, List.any_nil, List.drop,
      startsWithL, Bool.or_false, Bool.and_true, Bool.or_eq_true, Bool.and_eq_true,
      beq_iff_eq]
    constructor
    · rintro (⟨rfl, rfl, ht⟩ | ⟨_, hfalse⟩)
      · cases t with
        | nil => simp
        | cons x xs => simp [startsWithL] at ht
      · simp at hfalse
    · rintro (h | h | h | h) <;> simp_all [startsWithL]

theorem timescaleLine_transitions (st : VCDState) (line : String) :
    (timescaleLine st line).transitions = st.transitions := by
  unfold timescaleLine
  split
  · rfl
  · split <;> rfl

theorem varLine_transitions (st : VCDState) (line : String) :
    (varLine st line).transitions = st.transitions := by
  unfold varLine
  split <;> rfl

theorem timeLine_transitions (st : VCDState) (line : String) :
    (timeLine st line).transitions = st.transitions := by
  unfold timeLine
  split <;> rfl

theorem scalarEvent_trans_ge_one (st : VCDState) (v id : String)
    (h : ∀ p ∈ st.transitions, 1 ≤ p.2) :
    ∀ p ∈ (scalarEvent st v id).transitions, 1 ≤ p.2 := by
  unfold scalarEvent
  split
  · exact h
  · intro p hp
    dsimp only at hp
    split at hp
    · exact bumpTrans_ge_one _ _ h p hp
    · exact h p hp

theorem vectorEvent_trans_ge_one (st : VCDState) (v id : String)
    (h : ∀ p ∈ st.transitions, 1 ≤ p.2) :
    ∀ p ∈ (vectorEvent st v id).transitions, 1 ≤ p.2 := by
  unfold vectorEvent
  split
  · exact h
  · intro p hp
    dsimp only at hp
    split at hp
    · exact bumpTrans_ge_one _ _ h p hp
    · exact h p hp

theorem realEvent_trans_ge_one (st : VCDState) (v id : String)
    (h : ∀ p ∈ st.transitions, 1 ≤ p.2) :
    ∀ p ∈ (realEvent st v id).transitions, 1 ≤ p.2 := by
  unfold realEvent
  split
  · exact h
  · intro p hp
    dsimp only at hp
    split at hp
    · exact bumpTrans_ge_one _ _ h p hp
    · exact h p hp

theorem valueLine_trans_ge_one (st : VCDState) (line : String)
    (h : ∀ p ∈ st.transitions, 1 ≤ p.2) :
    ∀ p ∈ (valueLine st line).transitions, 1 ≤ p.2 := by
  unfold valueLine
  split
  · exact h
  · split
    · exact scalarEvent_trans_ge_one _ _ _ h
    · split
      · split
        · exact vectorEvent_trans_ge_one _ _ _ h
        · exact h
      · split
        · split
          · exact realEvent_trans_ge_one _ _ _ h
          · exact h
        · exact h

theorem processLine_trans_ge_one (st : VCDState) (raw : String)
    (h : ∀ p ∈ st.transitions, 1 ≤ p.2) :
    ∀ p ∈ (processLine st raw).transitions, 1 ≤ p.2 := by
  unfold processLine
  dsimp only
  split
  · exact h
  · split
    · rw [timescaleLine_transitions]
      exact h
    · split
      · rw [varLine_transitions]
        exact h
      · split
        · rw [timeLine_transitions]
          exact h
        · split
          · exact valueLine_trans_ge_one _ _ h
          · exact h

theorem foldl_trans_ge_one :
    ∀ (lines : List String) (st : VCDState),
      (∀ p ∈ st.transitions, 1 ≤ p.2) →
      ∀ p ∈ (lines.foldl processLine st).transitions, 1 ≤ p.2 := by
  intro lines
  induction lines with
  | nil => intro st h; simpa using h
  | cons l t ih =>
    intro st h
    simp only [List.foldl_cons]
    exact ih _ (processLine_trans_ge_one st l h)

theorem transCount_scalarEvent (st : VCDState) (v id : String) (info : SigInfo)
    (hdecl : alookup st.signals id = some info) :
    transCount (scalarEvent st v id) info.name =
      transCount st info.name +
        (if (match info.last_value with
             | some lv => (!(lv == v)) && inStr01 v && inStr01 lv
             | none => false) = true then 1 else 0) := by
  unfold scalarEvent
  rw [hdecl]
  dsimp only [transCount]
  split
  · rw [alookup_bumpTrans_self]
  · simp

theorem transCount_vectorEvent (st : VCDState) (v id : String) (info : SigInfo)
    (hdecl : alookup st.signals id = some info) :
    transCount (vectorEvent st v id) info.name =
      transCount st info.name +
        (if (match info.last_value with
             | some lv => !(lv == v)
             | none => false) = true then 1 else 0) := by
  unfold vectorEvent
  rw [hdecl]
  dsimp only [transCount]
  split
  · rw [alookup_bumpTrans_self]
  · simp

theorem transCount_realEvent (st : VCDState) (v id : String) (info : SigInfo)
    (hdecl : alookup st.signals id = some info) :
    transCount (realEvent st v id) info.name =
      transCount st info.name +
        (if (match info.last_value with
             | some lv => !(lv == v)
             | none => false) = true then 1 else 0) := by
  unfold realEvent
  rw [hdecl]
  dsimp only [transCount]
  split
  · rw [alookup_bumpTrans_self]
  · simp

theorem inStr01_singleton (c : Char) :
    inStr01 (String.mk [c]) = true ↔
      (String.mk [c] = "0" ∨ String.mk [c] = "1") := by
  rw [inStr01_iff]
  constructor
  · rintro (h | h | h | h)
    · rw [String.ext_iff] at h
      simp at h
    · exact Or.inl h
    · exact Or.inr h
    · rw [String.ext_iff] at h
      simp at h
  · rintro (h | h)
    · exact Or.inr (Or.inl h)
    · exact Or.inr (Or.inr (Or.inl h))

theorem scalar_counted_iff (lastv : Option String) (v : String)
    (hv : v.length = 1) :
    ((match lastv with
      | some lv => (!(lv == v)) && inStr01 v && inStr01 lv
      | none => false) = true) ↔
    (lastv ≠ none ∧ lastv ≠ some v ∧ (v = "0" ∨ v = "1") ∧
      (lastv = some "" ∨ lastv = some "0" ∨ lastv = some "1" ∨ lastv = some "01")) := by
  cases lastv with
  | none => simp
  | some lv =>
    have hvs : ∃ c, v = String.mk [c] := by
      obtain ⟨l⟩ := v
      match l, hv with
      | [c], _ => exact ⟨c, rfl⟩
    obtain ⟨c, rfl⟩ := hvs
    simp only [ne_eq, Option.some_inj, reduceCtorEq, not_false_iff, true_and]
    rw [Bool.and_eq_true, Bool.and_eq_true, Bool.not_eq_true',
      beq_eq_false_iff_ne, inStr01_singleton, inStr01_iff]
    tauto

theorem vector_counted_iff (lastv : Option String) (v : String) :
    ((match lastv with
      | some lv => !(lv == v)
      | none => false) = true) ↔ (lastv ≠ none ∧ lastv ≠ some v) := by
  cases lastv with
  | none => simp
  | some lv => simp [Bool.not_eq_true', beq_eq_false_iff_ne]

theorem firstMatchAux_isSome (name : String) :
    ∀ (ms : List (String → Bool)) (i : ℕ),
      (firstMatchAux name ms i).isSome = ms.any (fun m => m name) := by
  intro ms
  induction ms with
  | nil => intro i; rfl
  | cons m t ih =>
    intro i
    by_cases h : m name
    · simp [firstMatchAux, h]
    · simp [firstMatchAux, h, ih (i + 1)]

/-! ## Claim theorems -/

/-- C1, counterexample: the claim says a scalar transition is counted only
if both the previous and the new value symbol are in the set of "0" and
"1".  But the code tests membership with the Python substring operator
against the two-character string "01", so a previous value of "01" stored
by a vector event on the same code also passes the test: after the trace
traceMixed the stored previous value of code A is "01", which the claim
excludes, yet the following scalar event 0A increments the count. -/
theorem c1_scalar_claim_cex :
    ((alookup (parseVCD traceMixed).signals "A").map SigInfo.last_value =
      some (some "01")) ∧
    claimScalarCounted (some "01") "0" = false ∧
    transCount (parseVCD traceMixed) "s1" = 0 ∧
    transCount (processLine (parseVCD traceMixed) "0A") "s1" = 1 := by
  decide

/-- C1, amended: a scalar value-change event on a declared code increments
the transition count iff the stored previous value exists, differs from
the new symbol, the new symbol is 0 or 1, and the previous value is a
substring of "01" (one of "", "0", "1", "01"); for a purely scalar history
the previous value is a single symbol and the rule coincides with the
original claim.  The stored last value is always updated.  The sequence
0,1,0,1 yields transition count 3 and the sequence 0,x,1 yields 0. -/
theorem c1_scalar_transition_rule :
    (∀ (st : VCDState) (c : Char) (id : String) (info : SigInfo),
      alookup st.signals id = some info →
      isScalarSym c = true →
      transCount (scalarEvent st (String.mk [c]) id) info.name =
        transCount st info.name +
          (if info.last_value ≠ none ∧ info.last_value ≠ some (String.mk [c]) ∧
              (String.mk [c] = "0" ∨ String.mk [c] = "1") ∧
              (info.last_value = some "" ∨ info.last_value = some "0" ∨
               info.last_value = some "1" ∨ info.last_value = some "01")
           then 1 else 0)) ∧
    (∀ (st : VCDState) (c : Char) (id : String) (info : SigInfo),
      alookup st.signals id = some info →
      alookup (scalarEvent st (String.mk [c]) id).signals id =
        some ({ info with last_value := some (String.mk [c]) })) ∧
    transCount (parseVCD traceScalar0101) "s1" = 3 ∧
    transCount (parseVCD traceScalar0x1) "s1" = 0 := by
  refine ⟨?_, ?_, by decide, by decide⟩
  · intro st c id info hdecl _
    rw [transCount_scalarEvent st (String.mk [c]) id info hdecl]
    have h := scalar_counted_iff info.last_value (String.mk [c]) rfl
    simp only [h]
  · intro st c id info hdecl
    unfold scalarEvent
    rw [hdecl]
    exact alookup_setAssoc_self st.signals id _

/-- Witness for c1_scalar_transition_rule at a concrete decoder state. -/
theorem c1_scalar_transition_rule_witness :
    transCount (scalarEvent stDemo (String.mk ['1']) "A") infoDemo.name =
      transCount stDemo infoDemo.name +
        (if infoDemo.last_value ≠ none ∧
            infoDemo.last_value ≠ some (String.mk ['1']) ∧
            (String.mk ['1'] = "0" ∨ String.mk ['1'] = "1") ∧
            (infoDemo.last_value = some "" ∨ infoDemo.last_value = some "0" ∨
             infoDemo.last_value = some "1" ∨ infoDemo.last_value = some "01")
         then 1 else 0) :=
  c1_scalar_transition_rule.1 stDemo '1' "A" infoDemo (by decide) (by decide)

/-- C2: a vector or real value-change event on a declared code increments
the transition count iff a previous value exists and the new value string
differs from it, with no filtering of indeterminate bits; the bus
sequence b00,b01,b00 yields transition count 2, also when the
intermediate value contains an x bit. -/
theorem c2_vector_transition_rule :
    (∀ (st : VCDState) (v id : String) (info : SigInfo),
      alookup st.signals id = some info →
      transCount (vectorEvent st v id) info.name =
        transCount st info.name +
          (if info.last_value ≠ none ∧ info.last_value ≠ some v then 1 else 0)) ∧
    (∀ (st : VCDState) (v id : String) (info : SigInfo),
      alookup st.signals id = some info →
      transCount (realEvent st v id) info.name =
        transCount st info.name +
          (if info.last_value ≠ none ∧ info.last_value ≠ some v then 1 else 0)) ∧
    transCount (parseVCD traceVector) "s1" = 2 ∧
    transCount (parseVCD traceVectorX) "s1" = 2 := by
  refine ⟨?_, ?_, by decide, by decide⟩
  · intro st v id info hdecl
    rw [transCount_vectorEvent st v id info hdecl]
    simp only [vector_counted_iff]
  · intro st v id info hdecl
    rw [transCount_realEvent st v id info hdecl]
    simp only [vector_counted_iff]

/-- Witness for c2_vector_transition_rule at a concrete decoder state. -/
theorem c2_vector_transition_rule_witness :
    transCount (vectorEvent stDemo "10" "A") infoDemo.name =
      transCount stDemo infoDemo.name +
        (if infoDemo.last_value ≠ none ∧ infoDemo.last_value ≠ some "10"
         then 1 else 0) :=
  c2_vector_transition_rule.1 stDemo "10" "A" infoDemo (by decide)

/-- C9, counterexample: the claim says that with the default
configuration the per-signal value-history store is empty after any
decode; but the decoder appends to it unconditionally, so it is non-empty
after decoding a trace with a scalar event. -/
theorem c9_history_claim_cex :
    (parseVCD traceScalar0101).signal_values ≠ [] := by
  decide

/-- C9, amended: there is no retain_value_history option; the decoder
unconditionally appends every scalar and vector value-change event on a
declared code to the per-signal value history (keyed by signal name),
while real value-change events are not recorded. -/
theorem c9_history_unconditional :
    (∀ (st : VCDState) (v id : String) (info : SigInfo),
      alookup st.signals id = some info →
      (scalarEvent st v id).signal_values =
          appendVal st.signal_values info.name (st.current_time, v) ∧
        (vectorEvent st v id).signal_values =
          appendVal st.signal_values info.name (st.current_time, v) ∧
        (realEvent st v id).signal_values = st.signal_values) ∧
    (parseVCD traceScalar0101).signal_values =
      [("s1", [((0 : Int), "0"), (1, "1"), (2, "0"), (3, "1")])] := by
  refine ⟨?_, by decide⟩
  intro st v id info hdecl
  refine ⟨?_, ?_, ?_⟩
  · unfold scalarEvent
    rw [hdecl]
  · unfold vectorEvent
    rw [hdecl]
  · unfold realEvent
    rw [hdecl]

/-- Witness for c9_history_unconditional at a concrete decoder state. -/
theorem c9_history_unconditional_witness :
    (scalarEvent stDemo "1" "A").signal_values =
        appendVal stDemo.signal_values infoDemo.name (stDemo.current_time, "1") ∧
      (vectorEvent stDemo "1" "A").signal_values =
        appendVal stDemo.signal_values infoDemo.name (stDemo.current_time, "1") ∧
      (realEvent stDemo "1" "A").signal_values = stDemo.signal_values :=
  c9_history_unconditional.1 stDemo "1" "A" infoDemo (by decide)

/-- C3, counterexample: the claim says the threshold index is clamped to
the range [0, N-1], but the code only clamps from below with max(0, _);
at percentile 100 with one positive count the claimed clamped index is 0
(threshold 1, a successful run) while the code indexes one past the end
of the sorted list and raises IndexError (modelled as none). -/
theorem c3_threshold_claim_cex :
    positiveCounts [("a", JVal.num 1)] = [1] ∧
    claimThresholdIndex 1 100 = 0 ∧
    thresholdOf [("a", JVal.num 1)] 100 = none ∧
    identifySuspicious [("a", JVal.num 1)] 100 = none := by
  refine ⟨by with_unfolding_all decide, by decide,
    by with_unfolding_all decide, by with_unfolding_all decide⟩

set_option maxRecDepth 400000 in
/-- C3, amended: for a table with non-negative counts, at least one
positive count and percentile P < 100, the scorer sorts the positive
counts ascending and takes the threshold at index floor(N * P / 100),
which is then automatically within [0, N-1] and equals the clamped index
of the claim; a signal is suspicious iff its count is strictly between 0
and that threshold.  For counts 1..100 and P = 10 the threshold is 11 and
the suspicious set is exactly the ten signals with counts 1..10.  (For
P ≥ 100 the code has no upper clamp and raises IndexError instead.) -/
theorem c3_threshold_rule :
    (∀ (d : TransitionData) (P : ℕ),
      (∀ name c, (name, JVal.num c) ∈ d → 0 ≤ c) →
      positiveCounts d ≠ [] → P < 100 →
      ∃ thr l,
        thresholdOf d P = some thr ∧
        (sortBy qlt (positiveCounts d)).get?
          (min ((positiveCounts d).length * P / 100)
            ((positiveCounts d).length - 1)) = some thr ∧
        identifySuspicious d P = some l ∧
        (∀ r : SusRec, r ∈ l ↔
          ∃ name c, (name, JVal.num c) ∈ d ∧ 0 < c ∧ c < thr ∧
            r = { name := name, transitions := c
                  suspicion_score := 1 - c / avgTransitions d
                  percentage_of_avg := c / avgTransitions d * 100 })) ∧
    thresholdOf tableCounts100 10 = some 11 ∧
    (identifySuspicious tableCounts100 10).map (fun l => l.map (fun r => r.name)) =
      some ["s1", "s2", "s3", "s4", "s5", "s6", "s7", "s8", "s9", "s10"] := by
  refine ⟨?_, by with_unfolding_all decide, by with_unfolding_all decide⟩
  intro d P hnn hpos hP
  obtain ⟨thr, hthr, hclamp⟩ := thresholdOf_of_lt_100 d P hpos hP
  have havg : 0 < avgTransitions d := avg_pos_of_nonneg d hnn hpos
  have hne : avgTransitions d ≠ 0 := ne_of_gt havg
  have hbuild := buildSuspicious_eq_susOf (avgTransitions d) hne d thr
  have hid : identifySuspicious d P =
      some (sortBy susGt (susOf d thr (avgTransitions d))) := by
    unfold identifySuspicious
    have hdne : d.isEmpty = false := by
      rcases d with _ | ⟨p, t⟩
      · exact absurd rfl hpos
      · rfl
    have hpne : (positiveCounts d).isEmpty = false := by
      rcases hl : positiveCounts d with _ | ⟨c, t⟩
      · exact absurd hl hpos
      · rfl
    rw [hdne, hpne]
    simp only [Bool.false_eq_true, if_false, hthr, hbuild, Option.map_some']
  refine ⟨thr, sortBy susGt (susOf d thr (avgTransitions d)), hthr, hclamp, hid, ?_⟩
  intro r
  rw [mem_sortBy, mem_susOf]
  constructor
  · rintro ⟨name, c, hm, h0, hc, hr⟩
    rw [if_pos havg] at hr
    exact ⟨name, c, hm, h0, hc, hr⟩
  · rintro ⟨name, c, hm, h0, hc, hr⟩
    refine ⟨name, c, hm, h0, hc, ?_⟩
    rw [if_pos havg]
    exact hr

/-- Witness for c3_threshold_rule at a concrete two-signal table. -/
theorem c3_threshold_rule_witness :
    ∃ thr l,
      thresholdOf tableSmall 10 = some thr ∧
      (sortBy qlt (positiveCounts tableSmall)).get?
        (min ((positiveCounts tableSmall).length * 10 / 100)
          ((positiveCounts tableSmall).length - 1)) = some thr ∧
      identifySuspicious tableSmall 10 = some l ∧
      (∀ r : SusRec, r ∈ l ↔
        ∃ name c, (name, JVal.num c) ∈ tableSmall ∧ 0 < c ∧ c < thr ∧
          r = { name := name, transitions := c
                suspicion_score := 1 - c / avgTransitions tableSmall
                percentage_of_avg := c / avgTransitions tableSmall * 100 }) :=
  c3_threshold_rule.1 tableSmall 10
    (by
      intro name c h
      simp only [tableSmall, List.mem_cons, List.not_mem_nil, or_false,
        Prod.mk.injEq, JVal.num.injEq] at h
      rcases h with ⟨-, rfl⟩ | ⟨-, rfl⟩ <;> norm_num)
    (by with_unfolding_all decide)
    (by norm_num)

/-- C4: the risk level of every emitted candidate is a function of its
percentage of average alone, with half-open upper boundaries: below 5 is
CRITICAL, below 10 is HIGH, below 20 is MEDIUM, otherwise LOW; exactly 5
gives HIGH and exactly 20 gives LOW. -/
theorem c4_risk_levels :
    (∀ p : ℚ,
      (riskLevel p = "CRITICAL" ↔ p < 5) ∧
      (riskLevel p = "HIGH" ↔ 5 ≤ p ∧ p < 10) ∧
      (riskLevel p = "MEDIUM" ↔ 10 ≤ p ∧ p < 20) ∧
      (riskLevel p = "LOW" ↔ 20 ≤ p)) ∧
    riskLevel 5 = "HIGH" ∧
    riskLevel 20 = "LOW" ∧
    (∀ (dffList : List String) (sus : List SusRec) (c : Candidate),
      c ∈ analyzeTrojanCandidates dffList sus →
      c.risk_level = riskLevel c.percentage_of_avg) := by
  refine ⟨?_, by with_unfolding_all decide, by with_unfolding_all decide, ?_⟩
  · intro p
    unfold riskLevel
    split_ifs with h1 h2 h3 <;>
      refine ⟨⟨?_, ?_⟩, ⟨?_, ?_⟩, ⟨?_, ?_⟩, ⟨?_, ?_⟩⟩ <;>
      intro h <;>
      first
        | rfl
        | linarith
        | (exact absurd h (by decide))
        | (refine ⟨?_, ?_⟩ <;> linarith)
  · intro dffList sus c hc
    rw [analyzeTrojanCandidates, mem_sortBy] at hc
    unfold trojanCandidatesPre at hc
    rw [List.mem_filterMap] at hc
    obtain ⟨r, _, hf⟩ := hc
    by_cases hd : isDFF dffList r.name
    · rw [if_pos hd] at hf
      rw [← Option.some_inj.mp hf]
      rfl
    · rw [if_neg hd] at hf
      exact absurd hf (by simp)

/-- Witness for the quantified parts of c4_risk_levels. -/
theorem c4_risk_levels_witness :
    (mkCandidate susDemo).risk_level =
      riskLevel (mkCandidate susDemo).percentage_of_avg :=
  c4_risk_levels.2.2.2 [] [susDemo] (mkCandidate susDemo)
    (by with_unfolding_all decide)

/-- C5: degenerate input is safe: an empty transition table yields an
empty candidate list, and when every numeric count is non-negative, a
zero corpus average forces every count to zero, so no signal is
suspicious, the division in the suspicion score is never reached, and the
candidate list is empty rather than an error. -/
theorem c5_degenerate_safe :
    (∀ (P : ℕ) (dffList : List String), pctdPipeline [] dffList P = some []) ∧
    (∀ (d : TransitionData) (P : ℕ) (dffList : List String),
      (∀ name c, (name, JVal.num c) ∈ d → 0 ≤ c) →
      avgTransitions d = 0 →
      pctdPipeline d dffList P = some []) := by
  constructor
  · intro P dffList
    rfl
  · intro d P dffList hnn havg
    have hpc := positiveCounts_nil_of_avg_zero d hnn havg
    have hid := identifySuspicious_of_no_positive d P hpc
    unfold pctdPipeline
    rw [hid]
    rfl

/-- Witness for c5_degenerate_safe at a concrete all-zero table. -/
theorem c5_degenerate_safe_witness :
    pctdPipeline tableZero [] 10 = some [] :=
  c5_degenerate_safe.2 tableZero 10 []
    (by
      intro name c h
      simp only [tableZero, List.mem_cons, List.not_mem_nil, or_false,
        Prod.mk.injEq, JVal.num.injEq] at h
      rcases h with ⟨-, rfl⟩
      norm_num)
    (by with_unfolding_all decide)

/-- C6, counterexample: the claim says the count aggregates include every
declared signal whose transition count is 0.  But the transitions mapping
only materialises a signal on its first counted transition, so after
traceTwoSignals the declared signal s2 (count 0) is absent from the
mapping, the report average over counts is 1 rather than (1 + 0) / 2,
the minimum is 1 rather than 0, and the table handed to the scorer also
averages to 1. -/
theorem c6_aggregates_claim_cex :
    (parseVCD traceTwoSignals).signals.map (fun p => p.1) = ["A", "B"] ∧
    (alookup (parseVCD traceTwoSignals).signals "B").map SigInfo.name =
      some "s2" ∧
    transCount (parseVCD traceTwoSignals) "s2" = 0 ∧
    alookup (parseVCD traceTwoSignals).transitions "s2" = none ∧
    statsAvgTrans (parseVCD traceTwoSignals) = 1 ∧
    statsMinTrans (parseVCD traceTwoSignals) = 1 ∧
    avgTransitions (decoderOutput (parseVCD traceTwoSignals)) = 1 ∧
    ((1 : ℚ) + 0) / 2 ≠ 1 := by
  refine ⟨by decide, by decide, by decide, by decide,
    by with_unfolding_all decide, by decide,
    by with_unfolding_all decide, by norm_num⟩

/-- C6, amended: the decoder's transition-count mapping contains exactly
the signals with at least one counted transition (every stored count is
at least 1), so the aggregates computed from it exclude every declared
signal whose transition count is 0.  The scorer itself averages over all
numeric values present in its input table, so an externally supplied zero
count is included there. -/
theorem c6_aggregates_positive_only :
    (∀ (lines : List String) (p : String × ℕ),
      p ∈ (parseVCD lines).transitions → 1 ≤ p.2) ∧
    avgTransitions [("a", JVal.num 0), ("b", JVal.num 2)] = 1 := by
  constructor
  · intro lines p hp
    exact foldl_trans_ge_one lines initState (by simp [initState]) p hp
  · with_unfolding_all decide

/-- Witness for c6_aggregates_positive_only at a concrete trace. -/
theorem c6_aggregates_positive_only_witness :
    ("s1", 3) ∈ (parseVCD traceScalar0101).transitions ∧
      1 ≤ (("s1", 3) : String × ℕ).2 :=
  ⟨by decide, c6_aggregates_positive_only.1 traceScalar0101 ("s1", 3) (by decide)⟩

/-- C7: a suspicious signal becomes a trojan candidate iff it is
classified register-like, and the classification is the OR of the
hint-list containment test (substring in either direction) and the
ordered case-insensitive pattern list, where scanning for the first
matching pattern decides exactly when some pattern matches. -/
theorem c7_candidate_iff_register :
    (∀ (dffList : List String) (sus : List SusRec) (c : Candidate),
      c ∈ analyzeTrojanCandidates dffList sus ↔
        ∃ r, r ∈ sus ∧ isDFF dffList r.name = true ∧ c = mkCandidate r) ∧
    (∀ (dffList : List String) (name : String),
      isDFF dffList name =
        (dffList.any (fun dff =>
            hasSubL name.data dff.data || hasSubL dff.data name.data) ||
          (firstMatchIdx name).isSome)) := by
  constructor
  · intro dffList sus c
    rw [analyzeTrojanCandidates, mem_sortBy]
    unfold trojanCandidatesPre
    rw [List.mem_filterMap]
    constructor
    · rintro ⟨r, hr, hf⟩
      by_cases hd : isDFF dffList r.name = true
      · rw [if_pos hd] at hf
        exact ⟨r, hr, hd, (Option.some_inj.mp hf).symm⟩
      · rw [if_neg hd] at hf
        exact absurd hf (by simp)
    · rintro ⟨r, hr, hd, hc⟩
      exact ⟨r, hr, by rw [if_pos hd, hc]⟩
  · intro dffList name
    unfold isDFF firstMatchIdx
    rw [firstMatchAux_isSome]

/-- C8: the candidate list is sorted descending by trojan probability,
elements with equal probability keep their encounter order (the filter at
each exact probability value is unchanged by the sort), and the scoring
pipeline is a pure function, so re-running it on the same input yields
the identical list. -/
theorem c8_sorted_stable_deterministic :
    (∀ (dffList : List String) (sus : List SusRec),
      (analyzeTrojanCandidates dffList sus).Pairwise
        (fun a b => b.trojan_probability ≤ a.trojan_probability)) ∧
    (∀ (dffList : List String) (sus : List SusRec) (q : ℚ),
      (analyzeTrojanCandidates dffList sus).filter
          (fun c => decide (c.trojan_probability = q)) =
        (trojanCandidatesPre dffList sus).filter
          (fun c => decide (c.trojan_probability = q))) ∧
    (∀ (d : TransitionData) (dffList : List String) (P : ℕ),
      pctdPipeline d dffList P = pctdPipeline d dffList P) := by
  refine ⟨?_, ?_, fun _ _ _ => rfl⟩
  · intro dffList sus
    unfold analyzeTrojanCandidates
    apply pairwise_sortBy (R := fun a b => b.trojan_probability ≤ a.trojan_probability)
      candGt
    · intro a b h
      exact le_of_lt (of_decide_eq_true h)
    · intro a b h
      exact not_lt.mp (of_decide_eq_false h)
    · intro a b c hab hbc
      exact le_trans hbc hab
  · intro dffList sus q
    unfold analyzeTrojanCandidates
    have hgt : candGt = fun a b =>
        decide ((fun c : Candidate => c.trojan_probability) b <
          (fun c : Candidate => c.trojan_probability) a) := rfl
    rw [hgt]
    exact filter_sortBy (fun c : Candidate => c.trojan_probability) q _

set_option maxRecDepth 400000 in
/-- C10: on the table tableSkewed, whose counts are all non-negative, the
scorer emits a candidate with negative trojan probability and a
percentage of average above 100: the average (95/20) is computed over all
numeric counts including the ten zeros, while the percentile threshold
(10) is computed over the positive counts alone, so the count 5 is below
the threshold yet above the average. -/
theorem c10_negative_probability_candidate :
    (tableSkewed.all (fun p => match p.2 with
      | JVal.num c => decide (0 ≤ c)
      | JVal.other => true)) = true ∧
    pctdPipeline tableSkewed [] 10 =
      some [{ signal := "state_x", transitions := 5
              percentage_of_avg := 2000 / 19
              trojan_probability := -100 / 19
              risk_level := "LOW" }] ∧
    (-100 / 19 : ℚ) < 0 ∧
    (100 : ℚ) < 2000 / 19 := by
  refine ⟨by with_unfolding_all decide, ?_, by norm_num, by norm_num⟩
  with_unfolding_all decide
